import Mathlib

/-!
# Verification of `docctl.py` (document-control automation)

A shallow embedding, in Lean 4, of the Transmittal Validation and
Reconciliation Engine of `docctl.py`, together with theorems settling the
frozen specification claims.

Modelling conventions:
* Spreadsheet cell values are modelled by `Cell`: either a missing value
  (`Cell.none`, Python `None`), a string, or a structured date/datetime
  (`Cell.date`, carrying an abstract timestamp).  Other scalar cell types
  (numbers) behave like strings under `str(...)` and are not modelled
  separately.
* Python `str.strip()` whitespace is modelled as the four ASCII whitespace
  characters space, tab, LF, CR; `str.lower()/.upper()` are modelled by the
  ASCII case maps `Char.toLower`/`Char.toUpper`.  All claims are about ASCII
  header and identifier strings, where these agree with Python.
* `dateutil.parser.parse` is an external library; the development is
  parameterised by a partial parsing function `pd : String → Option Int`
  (`none` models a parse failure).
* The filesystem is modelled by names: a directory is a `Finset String` (or a
  `List String` where iteration order matters); only regular files are kept,
  mirroring the `is_dir()` / `is_file()` guards in the source.
* Exceptions are modelled by `Except Err`.  Uncaught exceptions (e.g. a
  header mismatch raised by `ensure_workbook`) surface as `.error` results.
-/

/-- The two-valued test `c = ' ' || c = '\t' || c = '\n' || c = '\r'`,
modelling the whitespace set of Python's `str.strip()`. -/
def isPyWS (c : Char) : Bool :=
  c = ' ' || c = '\t' || c = '\n' || c = '\r'

/-- Drop leading and trailing whitespace from a character list
(Python `str.strip()`). -/
def pyStripList (l : List Char) : List Char :=
  ((l.dropWhile isPyWS).reverse.dropWhile isPyWS).reverse

/-- Python `str.strip()` on strings. -/
def pyStrip (s : String) : String := ⟨pyStripList s.toList⟩

/-- Python `str.lower()` (ASCII). -/
def lowerStr (s : String) : String := ⟨s.toList.map Char.toLower⟩

/-- Python `str.upper()` (ASCII). -/
def upperStr (s : String) : String := ⟨s.toList.map Char.toUpper⟩

/-- Python `str.rstrip(";")` on a character list: remove *all* trailing
semicolons. -/
def pyRstripSemis (l : List Char) : List Char :=
  (l.reverse.dropWhile (fun c => c = ';')).reverse

/-- Helper: `listPrefixEq needle hay` is true when `needle` is an initial segment of
`hay`. -/
def listPrefixEq : List Char → List Char → Bool
  | [], _ => true
  | _ :: _, [] => false
  | a :: as, b :: bs => a = b && listPrefixEq as bs

/-- Helper: `listContainsSeq needle hay` is true when `needle` occurs as a contiguous
subsequence of `hay` (Python's `needle in hay` on strings). -/
def listContainsSeq (needle : List Char) : List Char → Bool
  | [] => listPrefixEq needle []
  | c :: rest => listPrefixEq needle (c :: rest) || listContainsSeq needle rest

/-- Python substring test `needle in hay`. -/
def strContains (hay needle : String) : Bool :=
  listContainsSeq needle.toList hay.toList

/-- Decimal digit character for `n < 10`. -/
def decDigitChar (n : Nat) : Char := Char.ofNat (48 + n)

/-- Fuelled decimal rendering (most significant digit first); with fuel
`> n` this is the standard decimal numeral of `n`.  Structured with explicit
fuel so that it is structurally recursive and kernel-evaluable. -/
def decDigitsAux : Nat → Nat → List Char
  | 0, _ => []
  | fuel + 1, n =>
    if n < 10 then [decDigitChar n]
    else decDigitsAux fuel (n / 10) ++ [decDigitChar (n % 10)]

/-- Decimal rendering of a natural number (Python `str(int)`). -/
def decRepr (n : Nat) : String := ⟨decDigitsAux (n + 1) n⟩

-- ===========================================================================
-- Fixed schema constants (docctl.py lines 30-53)
-- ===========================================================================

/-- Source `EXPECTED_HEADERS`: the 13-column transmittal schema. -/
def EXPECTED_HEADERS : List String :=
  ["TRANSMITTAL NUMBER", "TRANSMITTAL NAME", "DATE", "ITEM",
   "DOCUMENT NUMBER 1", "DOCUMENT NUMBER 2", "TITLE", "VERSION",
   "DOCUMENT STATE", "ISSUE OBJECTIVE", "HOLD LIST", "ISSUED BY", "ISSUED TO"]

/-- Source `DATABASE_HEADERS = EXPECTED_HEADERS + ["FILENAMES"]`. -/
def DATABASE_HEADERS : List String := EXPECTED_HEADERS ++ ["FILENAMES"]

/-- Source `REQUIRED_FIELDS`.  The source holds these in a Python
`set`; iteration order over a set is implementation-defined, so we fix the
literal order.  Claims depend only on whether a required field fails, not on
which one is reported first. -/
def REQUIRED_FIELDS : List String :=
  ["TRANSMITTAL NUMBER", "DATE", "ITEM", "DOCUMENT NUMBER 1", "TITLE", "VERSION"]

-- ===========================================================================
-- Cells and errors
-- ===========================================================================

/-- A spreadsheet cell value. -/
inductive Cell where
  | none : Cell
  | str : String → Cell
  | date : Int → Cell
deriving DecidableEq, Repr

/-- Python `str(value)` for a non-`None` cell.  A structured date renders to
some fixed nonempty text without surrounding whitespace, as `str(datetime)`
does; the exact rendering is irrelevant to every claim. -/
def cellStr : Cell → String
  | Cell.none => "None"
  | Cell.str s => s
  | Cell.date d => "datetime-" ++ decRepr d.toNat

/-- The test `value is None or str(value).strip() == ""` used by the source
for required fields and by both normalizers. -/
def isEmptyVal (c : Cell) : Bool :=
  match c with
  | Cell.none => true
  | c => pyStrip (cellStr c) == ""

/-- The test `value in (None, "")` used when reading the history table. -/
def isBlankCell (c : Cell) : Bool :=
  c == Cell.none || c == Cell.str ""

/-- Error kinds raised by the engine (the source raises `ValueError` with
distinguishing messages; we keep the kinds). -/
inductive Err where
  | requiredEmpty (field : String)
  | emptyField (field : String)
  | duplicateVersion (doc ver : String)
  | invalidDate
  | headerMismatch
  | badHeaderCell
  | emptyHeaderCells
  | missingColumn (name : String)
  | noValidRows
  | validationErrors
deriving DecidableEq, Repr

-- ===========================================================================
-- Normalizers (docctl.py lines 64-91)
-- ===========================================================================

/-- Source `normalize_header`: `value.strip().rstrip(";").upper()`. -/
def normalizeHeader (s : String) : String :=
  upperStr ⟨pyRstripSemis (pyStrip s).toList⟩

/-- Source `normalize_version`: reject empty, else `str(value).strip()` (case
preserved). -/
def normalizeVersion (c : Cell) : Except Err String :=
  if isEmptyVal c then .error (.emptyField "VERSION")
  else .ok (pyStrip (cellStr c))

/-- Source `normalize_doc_number`: reject empty, else `str(value).strip().lower()`. -/
def normalizeDocNumber (c : Cell) : Except Err String :=
  if isEmptyVal c then .error (.emptyField "DOCUMENT NUMBER 1")
  else .ok (lowerStr (pyStrip (cellStr c)))

/-- Source `coerce_date`, parameterised by the external date parser `pd`
(`dateutil.parser.parse`); structured dates pass through, empty input and
parse failures raise. -/
def coerceDate (pd : String → Option Int) (c : Cell) : Except Err Cell :=
  match c with
  | Cell.date d => .ok (Cell.date d)
  | Cell.none => .error .invalidDate
  | Cell.str s =>
    let text := pyStrip s
    if text = "" then .error .invalidDate
    else
      match pd text with
      | some d => .ok (Cell.date d)
      | Option.none => .error .invalidDate

-- ===========================================================================
-- Records (rows as mappings from normalized header names to cells)
-- ===========================================================================

/-- A manifest record: the mapping from the 13 canonical (normalized) column
names to cell values built by `read_sheet_rows`.  Keys never present map to
`Cell.none`, matching Python `dict.get`. -/
structure RawRow where
  transmittalNumber : Cell := Cell.none
  transmittalName : Cell := Cell.none
  date : Cell := Cell.none
  item : Cell := Cell.none
  docNumber1 : Cell := Cell.none
  docNumber2 : Cell := Cell.none
  title : Cell := Cell.none
  version : Cell := Cell.none
  docState : Cell := Cell.none
  issueObjective : Cell := Cell.none
  holdList : Cell := Cell.none
  issuedBy : Cell := Cell.none
  issuedTo : Cell := Cell.none
deriving DecidableEq, Repr

/-- Lookup `record.get(name)` for the 13 schema columns (`Cell.none` otherwise). -/
def RawRow.get (r : RawRow) : String → Cell
  | "TRANSMITTAL NUMBER" => r.transmittalNumber
  | "TRANSMITTAL NAME" => r.transmittalName
  | "DATE" => r.date
  | "ITEM" => r.item
  | "DOCUMENT NUMBER 1" => r.docNumber1
  | "DOCUMENT NUMBER 2" => r.docNumber2
  | "TITLE" => r.title
  | "VERSION" => r.version
  | "DOCUMENT STATE" => r.docState
  | "ISSUE OBJECTIVE" => r.issueObjective
  | "HOLD LIST" => r.holdList
  | "ISSUED BY" => r.issuedBy
  | "ISSUED TO" => r.issuedTo
  | _ => Cell.none

/-- Assignment `record[name] = c` for the 13 schema columns (no-op otherwise: the
engine only ever reads the schema columns back). -/
def RawRow.set (r : RawRow) (name : String) (c : Cell) : RawRow :=
  match name with
  | "TRANSMITTAL NUMBER" => { r with transmittalNumber := c }
  | "TRANSMITTAL NAME" => { r with transmittalName := c }
  | "DATE" => { r with date := c }
  | "ITEM" => { r with item := c }
  | "DOCUMENT NUMBER 1" => { r with docNumber1 := c }
  | "DOCUMENT NUMBER 2" => { r with docNumber2 := c }
  | "TITLE" => { r with title := c }
  | "VERSION" => { r with version := c }
  | "DOCUMENT STATE" => { r with docState := c }
  | "ISSUE OBJECTIVE" => { r with issueObjective := c }
  | "HOLD LIST" => { r with holdList := c }
  | "ISSUED BY" => { r with issuedBy := c }
  | "ISSUED TO" => { r with issuedTo := c }
  | _ => r

/-- Build a record from a data row zipped with the (normalized) header names,
later columns overwriting earlier ones with the same name, as the dict
assignment loop in `read_sheet_rows` does. -/
def recordOf (names : List String) (row : List Cell) : RawRow :=
  (row.zip names).foldl (fun r p => r.set p.2 p.1) {}

/-- A persistent or manifest table: a header row of cells followed by data
rows (the abstract "tabular data store" of the spec). -/
structure Sheet where
  headers : List Cell
  rows : List (List Cell)
deriving DecidableEq, Repr

/-- Text of the header cells as `normalize_header` sees them:
`c.value or ""` maps a missing cell to `""`; a non-string header cell makes
`normalize_header` fail (Python `AttributeError`), modelled by `none`. -/
def headerTexts : List Cell → Option (List String)
  | [] => some []
  | Cell.none :: rest => (headerTexts rest).map (fun l => "" :: l)
  | Cell.str s :: rest => (headerTexts rest).map (fun l => s :: l)
  | Cell.date _ :: _ => Option.none

-- ===========================================================================
-- read_sheet_rows (docctl.py lines 94-112)
-- ===========================================================================

/-- Source `read_sheet_rows`: reject a header row with empty (or non-string) cells,
require every expected column among the normalized header names, skip
all-blank data rows, and return the records in row order. -/
def readSheetRows (s : Sheet) : Except Err (List RawRow) :=
  if s.headers.any (fun c => c == Cell.none) then .error .emptyHeaderCells
  else
    match headerTexts s.headers with
    | Option.none => .error .badHeaderCell
    | some hs =>
      let names := hs.map normalizeHeader
      match EXPECTED_HEADERS.find? (fun h => !(names.contains h)) with
      | some h => .error (.missingColumn h)
      | Option.none =>
        .ok ((s.rows.filter (fun row => !(row.all isBlankCell))).map (recordOf names))

-- ===========================================================================
-- find_matching_files (docctl.py lines 115-122)
-- ===========================================================================

/-- Insert into a ≤-sorted list of strings. -/
def insertSorted (x : String) : List String → List String
  | [] => [x]
  | y :: ys => if decide (¬ y < x) then x :: y :: ys else y :: insertSorted x ys

/-- Python `sorted(...)` on strings (ascending lexicographic order). -/
def sortStrings (l : List String) : List String := l.foldr insertSorted []

/-- Source `find_matching_files`: among the directory's regular-file entries,
excluding the manifest itself, keep those whose lower-cased name contains the
normalized document number, sorted. -/
def findMatchingFiles (entries : List String) (logName docNumber : String) :
    List String :=
  sortStrings (entries.filter
    (fun f => (f != logName) && strContains (lowerStr f) docNumber))

-- ===========================================================================
-- ensure_workbook (docctl.py lines 125-139)
-- ===========================================================================

/-- Source `ensure_workbook`: a missing table is created with the canonical header
row; an existing one must have normalized headers exactly equal to the
normalized expected list, otherwise `Header mismatch` is raised. -/
def ensureWorkbook (stored : Option Sheet) (headers : List String) :
    Except Err Sheet :=
  match stored with
  | Option.none => .ok { headers := headers.map Cell.str, rows := [] }
  | some s =>
    match headerTexts s.headers with
    | Option.none => .error .badHeaderCell
    | some hs =>
      if hs.map normalizeHeader = headers.map normalizeHeader then .ok s
      else .error .headerMismatch

-- ===========================================================================
-- load_existing_versions (docctl.py lines 142-159)
-- ===========================================================================

/-- Index of the *last* occurrence of `name` in `l` (the dict comprehension
`{h: idx for idx, h in enumerate(headers)}` keeps the last index of a
duplicated header). -/
def lastIndexOf (l : List String) (name : String) : Option Nat :=
  (l.foldl (fun st h => (st.1 + 1, if h = name then some st.1 else st.2))
    ((0 : Nat), (Option.none : Option Nat))).2

/-- The set of (normalized document number, lower-cased normalized version)
pairs collected from history data rows, given the column indices of
`DOCUMENT NUMBER 1` and `VERSION`.  Rows whose document or version cell is
`None` or `""` are skipped; other malformed cells raise. -/
def collectVersions (di vi : Nat) :
    List (List Cell) → Except Err (Finset (String × String))
  | [] => .ok ∅
  | row :: rest =>
    let docv := row.getD di Cell.none
    let verv := row.getD vi Cell.none
    if isBlankCell docv || isBlankCell verv then collectVersions di vi rest
    else
      match normalizeDocNumber docv, normalizeVersion verv with
      | .ok nd, .ok nv =>
        match collectVersions di vi rest with
        | .ok s => .ok (insert (nd, lowerStr nv) s)
        | .error e => .error e
      | .error e, _ => .error e
      | .ok _, .error e => .error e

/-- Source `load_existing_versions`: the Version History Index.  A missing history
table yields the empty set; otherwise the normalized headers must contain
`DOCUMENT NUMBER 1` and `VERSION` (a *subset* check, not exact equality),
and the data rows are collected. -/
def loadExistingVersions (db : Option Sheet) :
    Except Err (Finset (String × String)) :=
  match db with
  | Option.none => .ok ∅
  | some s =>
    match headerTexts s.headers with
    | Option.none => .error .badHeaderCell
    | some hs =>
      let names := hs.map normalizeHeader
      match lastIndexOf names "DOCUMENT NUMBER 1", lastIndexOf names "VERSION" with
      | some di, some vi => collectVersions di vi s.rows
      | Option.none, _ => .error .headerMismatch
      | some _, Option.none => .error .headerMismatch

-- ===========================================================================
-- Row validation (docctl.py lines 245-270)
-- ===========================================================================

/-- A Validated Row (`TransmittalRow` dataclass of the source). -/
structure TransmittalRow where
  raw : RawRow
  normalized_doc : String
  normalized_version : String
  filenames : List String
deriving DecidableEq, Repr

/-- The required-field loop: first field that is `None` or blank after
trimming fails. -/
def checkRequiredFrom (r : RawRow) : List String → Except Err Unit
  | [] => .ok ()
  | f :: fs =>
    if isEmptyVal (r.get f) then .error (.requiredEmpty f)
    else checkRequiredFrom r fs

/-- Validation of one manifest row (the body of the `try` in the row loop of
`process_transmittal`): required fields, normalization, duplicate check
against the Version History Index, date coercion (stored back into the
record), file matching. -/
def validateRow (pd : String → Option Int) (existing : Finset (String × String))
    (entries : List String) (logName : String) (raw : RawRow) :
    Except Err TransmittalRow :=
  match checkRequiredFrom raw REQUIRED_FIELDS with
  | .error e => .error e
  | .ok _ =>
    match normalizeDocNumber (raw.get "DOCUMENT NUMBER 1") with
    | .error e => .error e
    | .ok nd =>
      match normalizeVersion (raw.get "VERSION") with
      | .error e => .error e
      | .ok nv =>
        if (nd, lowerStr nv) ∈ existing then
          .error (.duplicateVersion nd (lowerStr nv))
        else
          match coerceDate pd (raw.get "DATE") with
          | .error e => .error e
          | .ok d =>
            .ok { raw := raw.set "DATE" d
                  normalized_doc := nd
                  normalized_version := nv
                  filenames := findMatchingFiles entries logName nd }

/-- The row loop: every row is evaluated against the *same* Version History
Index (built once, before the loop); successes and errors are aggregated in
row order, errors tagged with their 1-based sheet row number (data rows start
at 2). -/
def validateRowsFrom (pd : String → Option Int)
    (existing : Finset (String × String)) (entries : List String)
    (logName : String) : Nat → List RawRow → List TransmittalRow × List (Nat × Err)
  | _, [] => ([], [])
  | idx, r :: rest =>
    let res := validateRowsFrom pd existing entries logName (idx + 1) rest
    match validateRow pd existing entries logName r with
    | .ok t => (t :: res.1, res.2)
    | .error e => (res.1, (idx, e) :: res.2)

/-- All rows of a manifest, numbered from sheet row 2. -/
def validateRows (pd : String → Option Int)
    (existing : Finset (String × String)) (entries : List String)
    (logName : String) (raws : List RawRow) :
    List TransmittalRow × List (Nat × Err) :=
  validateRowsFrom pd existing entries logName 2 raws

-- ===========================================================================
-- append_to_database (docctl.py lines 162-169)
-- ===========================================================================

/-- The database row appended for one validated row: the 13 schema cells
followed by the matched filenames joined with `"; "`. -/
def dbRowOf (t : TransmittalRow) : List Cell :=
  (EXPECTED_HEADERS.map t.raw.get) ++
    [Cell.str (String.intercalate "; " t.filenames)]

/-- Source `append_to_database`: open (or create) the history table with the
14-column schema and append one row per validated row, in order.  The
pre-existing rows are left untouched. -/
def appendToDatabase (db : Option Sheet) (rows : List TransmittalRow) :
    Except Err Sheet :=
  match ensureWorkbook db DATABASE_HEADERS with
  | .error e => .error e
  | .ok s =>
    .ok { headers := s.headers
          rows := rows.foldl (fun rs t => rs ++ [dbRowOf t]) s.rows }

-- ===========================================================================
-- update_document_list (docctl.py lines 172-190)
-- ===========================================================================

/-- Insertion-ordered dictionary on document keys, with Python `dict`
semantics: assigning to a present key replaces the value in place, a new key
is appended. -/
def dictInsert (d : List (String × RawRow)) (k : String) (v : RawRow) :
    List (String × RawRow) :=
  if d.any (fun p => p.1 == k) then
    d.map (fun p => if p.1 == k then (k, v) else p)
  else d ++ [(k, v)]

/-- Load the current Latest-Version Index rows into a dictionary keyed by
normalized document number, in row order (later rows overwrite earlier
duplicate keys); a row with an empty document cell raises. -/
def buildDictFrom (names : List String) (acc : List (String × RawRow)) :
    List (List Cell) → Except Err (List (String × RawRow))
  | [] => .ok acc
  | row :: rest =>
    if row.all isBlankCell then buildDictFrom names acc rest
    else
      let record := recordOf names row
      match normalizeDocNumber (record.get "DOCUMENT NUMBER 1") with
      | .ok k => buildDictFrom names (dictInsert acc k record) rest
      | .error e => .error e

/-- Source `update_document_list`: merge the accepted rows into the loaded mapping
(last write wins, in manifest row order) and rewrite the whole table from the
mapping, in mapping iteration order, with the fixed column order. -/
def updateDocumentList (dl : Option Sheet) (rows : List TransmittalRow) :
    Except Err Sheet :=
  match ensureWorkbook dl EXPECTED_HEADERS with
  | .error e => .error e
  | .ok s =>
    match headerTexts s.headers with
    | Option.none => .error .badHeaderCell
    | some hs =>
      let names := hs.map normalizeHeader
      match buildDictFrom names [] s.rows with
      | .error e => .error e
      | .ok d0 =>
        let merged := rows.foldl (fun d t => dictInsert d t.normalized_doc t.raw) d0
        .ok { headers := s.headers
              rows := merged.map (fun p => EXPECTED_HEADERS.map p.2.get) }

-- ===========================================================================
-- move_transmittal (docctl.py lines 193-201)
-- ===========================================================================

/-- The candidate name with numeric suffix `k` (`f"{src.name}-{counter}"`). -/
def suffixName (name : String) (k : Nat) : String :=
  name ++ "-" ++ decRepr k

/-- Length of the decimal numeral of a power of ten (used only to show the
collision loop of `move_transmittal` terminates on a finite directory). -/
def decLenPow (e : Nat) :
    ∀ f, 10 ^ e < f → (decDigitsAux f (10 ^ e)).length = e + 1 := by
  induction e with
  | zero =>
    intro f hf
    cases f with
    | zero => omega
    | succ f => simp [decDigitsAux]
  | succ e ih =>
    intro f hf
    cases f with
    | zero => exact absurd hf (Nat.not_lt_zero _)
    | succ f =>
      have hten : (10 : Nat) ≤ 10 ^ (e + 1) := by
        calc (10 : Nat) = 10 ^ 1 := by norm_num
        _ ≤ 10 ^ (e + 1) := Nat.pow_le_pow_right (by norm_num) (by omega)
      have h10 : ¬ (10 ^ (e + 1) < 10) := by omega
      have hdiv : 10 ^ (e + 1) / 10 = 10 ^ e := by
        rw [Nat.pow_succ]
        exact Nat.mul_div_cancel _ (by norm_num)
      have hlt : 10 ^ e < f := by
        have : 10 ^ e < 10 ^ (e + 1) := by
          have := Nat.pow_lt_pow_right (a := 10) (by norm_num) (Nat.lt_succ_self e)
          exact this
        omega
      simp only [decDigitsAux, if_neg h10, hdiv, List.length_append,
        List.length_cons, List.length_nil, ih f hlt]

/-- On any finite directory some numeric suffix is free: a long enough
candidate name exceeds every name already present. -/
def freeSuffixExists (existing : Finset String) (name : String) :
    ∃ k, suffixName name (k + 1) ∉ existing := by
  classical
  refine ⟨10 ^ (existing.sup String.length + 1) - 1, fun hmem => ?_⟩
  have hpos : (1 : Nat) ≤ 10 ^ (existing.sup String.length + 1) :=
    Nat.one_le_pow _ _ (by norm_num)
  have hle : (suffixName name (10 ^ (existing.sup String.length + 1) - 1 + 1)).length ≤
      existing.sup String.length := Finset.le_sup hmem
  have hrepr : (decRepr (10 ^ (existing.sup String.length + 1))).length =
      existing.sup String.length + 2 := by
    show (decDigitsAux (10 ^ (existing.sup String.length + 1) + 1)
      (10 ^ (existing.sup String.length + 1))).length = _
    rw [decLenPow (existing.sup String.length + 1) _ (by omega)]
  rw [show 10 ^ (existing.sup String.length + 1) - 1 + 1 =
      10 ^ (existing.sup String.length + 1) by omega] at hle
  rw [suffixName, String.length_append, String.length_append, hrepr] at hle
  omega

/-- Source `move_transmittal`, at the level of destination-directory names: use the
transmittal's own name when free, otherwise the first free name among
`name-1`, `name-2`, … . -/
def moveTarget (existing : Finset String) (name : String) : String :=
  if name ∈ existing then
    suffixName name (Nat.find (freeSuffixExists existing name) + 1)
  else name

-- ===========================================================================
-- sync_current_files (docctl.py lines 204-227)
-- ===========================================================================

/-- One step of the Current-Files synchronizer on state
`(mirror, processedDocs)` for one validated row: at the first occurrence of a
document identifier, delete every mirror file whose lower-cased name contains
it; then copy in the row's listed filenames (skipping names missing from the
transmittal directory; copying overwrites same-named files). -/
def syncStep (tfiles : List String) (acc : Finset String × Finset String)
    (t : TransmittalRow) : Finset String × Finset String :=
  let cleaned :=
    if t.normalized_doc ∈ acc.2 then acc
    else (acc.1.filter (fun f => strContains (lowerStr f) t.normalized_doc = false),
          insert t.normalized_doc acc.2)
  (t.filenames.foldl (fun m f => if f ∈ tfiles then insert f m else m) cleaned.1,
   cleaned.2)

/-- Source `sync_current_files`: fold `syncStep` over the validated rows in manifest
row order, starting from the current mirror contents and an empty
processed-documents set. -/
def syncCurrentFiles (mirror : Finset String) (tfiles : List String)
    (rows : List TransmittalRow) : Finset String :=
  (rows.foldl (syncStep tfiles) (mirror, ∅)).1

/-- The copy loop of `syncStep`, standalone: copy each listed filename that
exists among the transmittal's entries into the mirror (definitionally equal
to the inner fold of `syncStep`). -/
def copyFiles (tfiles : List String) (fl : List String) (m : Finset String) :
    Finset String :=
  fl.foldl (fun acc f => if f ∈ tfiles then insert f acc else acc) m

-- ===========================================================================
-- process_transmittal (docctl.py lines 230-288)
-- ===========================================================================

/-- A pending transmittal directory: its name, its regular-file entries other
than the manifest, and the manifest sheet (`none` when
`<name>.xlsx` does not exist). -/
structure Transmittal where
  name : String
  files : List String
  manifest : Option Sheet
deriving DecidableEq, Repr

/-- The manifest filename `f"{transmittal_dir.name}.xlsx"`. -/
def logNameOf (t : Transmittal) : String := t.name ++ ".xlsx"

/-- The persistent world acted on by one transmittal: the two tables, the
Current Files mirror, and the directory-name sets of the three transmittal
roots. -/
structure ProjectState where
  database : Option Sheet
  docList : Option Sheet
  mirror : Finset String
  pending : Finset String
  accepted : Finset String
  rejected : Finset String
deriving DecidableEq

/-- Relocation of a transmittal directory into the rejected root. -/
def rejectState (st : ProjectState) (name : String) : ProjectState :=
  { st with
    pending := st.pending.erase name
    rejected := insert (moveTarget st.rejected name) st.rejected }

/-- Source `process_transmittal`: the per-transmittal pipeline.  The result is
`.error` when an exception escapes the function (header mismatch while
loading the history index, or while opening either persistent table on the
accept path), and `.ok (st, accepted?)` otherwise.  Read failures and row
errors are caught by the source's `try`/`except` and lead to rejection. -/
def processTransmittal (pd : String → Option Int) (st : ProjectState)
    (t : Transmittal) : Except Err (ProjectState × Bool) :=
  match t.manifest with
  | Option.none => .ok (rejectState st t.name, false)
  | some m =>
    match loadExistingVersions st.database with
    | .error e => .error e
    | .ok existing =>
      match readSheetRows m with
      | .error _ => .ok (rejectState st t.name, false)
      | .ok raws =>
        let res := validateRows pd existing t.files (logNameOf t) raws
        if res.1 = [] ∨ res.2 ≠ [] then .ok (rejectState st t.name, false)
        else
          match appendToDatabase st.database res.1 with
          | .error e => .error e
          | .ok db' =>
            match updateDocumentList st.docList res.1 with
            | .error e => .error e
            | .ok dl' =>
              .ok ({ st with
                     database := some db'
                     docList := some dl'
                     mirror := syncCurrentFiles st.mirror t.files res.1
                     pending := st.pending.erase t.name
                     accepted := insert (moveTarget st.accepted t.name) st.accepted },
                   true)

-- ===========================================================================
-- Spec-side reference definitions (for refinement-style claims)
-- ===========================================================================

/-- Header normalization as claim C8 words it: trim, remove *exactly one*
trailing semicolon when present, uppercase. -/
def claimHeaderNormalize (s : String) : String :=
  let t := pyStrip s
  let u := if t.toList.getLast? = some ';' then ⟨t.toList.dropLast⟩ else t
  upperStr u

/-- Removal of all trailing semicolons, stated recursively from the end of
the string (the amended reading of claim C8). -/
def specDropTrailingSemis (l : List Char) : List Char :=
  if l.getLast? = some ';' then specDropTrailingSemis l.dropLast else l
termination_by l.length
decreasing_by
  cases l with
  | nil => simp_all
  | cons c cs => simp [List.length_dropLast]

/-- The last validated row of an accepted transmittal carrying a given
normalized document identifier (the row whose field set the Latest-Version
Index must retain). -/
def lastRowFor (d : String) : List TransmittalRow → Option TransmittalRow
  | [] => Option.none
  | t :: ts =>
    match lastRowFor d ts with
    | some u => some u
    | Option.none => if t.normalized_doc = d then some t else Option.none

-- ===========================================================================
-- Concrete fixtures used by witnesses
-- ===========================================================================

/-- A date parser instance accepting every text (parse details are external
to the engine). -/
def pd0 : String → Option Int := fun _ => some 0

/-- A manifest data row whose required TITLE field is empty. -/
def rowBad : List Cell :=
  [Cell.str "T-1", Cell.none, Cell.str "2024-01-02", Cell.str "1",
   Cell.str "SPEC-100", Cell.none, Cell.str "", Cell.str "A",
   Cell.none, Cell.none, Cell.none, Cell.none, Cell.none]

/-- A fully valid manifest data row for document SPEC-100, version A. -/
def rowGood : List Cell :=
  [Cell.str "T-1", Cell.none, Cell.str "2024-01-02", Cell.str "1",
   Cell.str "SPEC-100", Cell.none, Cell.str "Spec", Cell.str "A",
   Cell.none, Cell.none, Cell.none, Cell.none, Cell.none]

/-- A second valid row carrying the same (document, version) pair as
`rowGood` but a different title. -/
def rowGood2 : List Cell :=
  [Cell.str "T-1", Cell.none, Cell.str "2024-01-02", Cell.str "1",
   Cell.str "SPEC-100", Cell.none, Cell.str "Other", Cell.str "A",
   Cell.none, Cell.none, Cell.none, Cell.none, Cell.none]

/-- A valid row resubmitting document SPEC-100 with version B (upper case). -/
def rowDup : List Cell :=
  [Cell.str "T-1", Cell.none, Cell.str "2024-01-02", Cell.str "1",
   Cell.str "SPEC-100", Cell.none, Cell.str "Spec", Cell.str "B",
   Cell.none, Cell.none, Cell.none, Cell.none, Cell.none]

/-- Data-file entries of the example transmittal directory. -/
def files0 : List String := ["SPEC-100_a.pdf"]

/-- Records of the fixture rows. -/
def rawBad : RawRow := recordOf EXPECTED_HEADERS rowBad

/-- Record of `rowGood`. -/
def rawGood : RawRow := recordOf EXPECTED_HEADERS rowGood

/-- Record of `rowGood2`. -/
def rawGood2 : RawRow := recordOf EXPECTED_HEADERS rowGood2

/-- Record of `rowDup`. -/
def rawDup : RawRow := recordOf EXPECTED_HEADERS rowDup

/-- The validated row produced from `rawGood` under `pd0`. -/
def tGoodRow : TransmittalRow :=
  { raw := rawGood.set "DATE" (Cell.date 0)
    normalized_doc := "spec-100"
    normalized_version := "A"
    filenames := ["SPEC-100_a.pdf"] }

/-- The validated row produced from `rawGood2` under `pd0`. -/
def tGoodRow2 : TransmittalRow :=
  { raw := rawGood2.set "DATE" (Cell.date 0)
    normalized_doc := "spec-100"
    normalized_version := "A"
    filenames := ["SPEC-100_a.pdf"] }

/-- A history-table data row recording document `spec-100`, version `b`. -/
def histRow : List Cell :=
  [Cell.str "T-0", Cell.none, Cell.str "2024-01-01", Cell.str "1",
   Cell.str "spec-100", Cell.none, Cell.str "Spec", Cell.str "b",
   Cell.none, Cell.none, Cell.none, Cell.none, Cell.none, Cell.str ""]

/-- A history table holding `histRow` under the canonical 14-column header. -/
def histDb : Sheet :=
  { headers := DATABASE_HEADERS.map Cell.str, rows := [histRow] }

/-- A history table whose header has only the two columns
`load_existing_versions` requires (far from the full 14-column schema). -/
def histHeadersOnly : Sheet :=
  { headers := [Cell.str "DOCUMENT NUMBER 1", Cell.str "VERSION"], rows := [] }

/-- A history-table data row whose document cell is empty (and version `b`). -/
def blankDocRow : List Cell :=
  [Cell.str "T-0", Cell.none, Cell.str "2024-01-01", Cell.str "1",
   Cell.str "", Cell.none, Cell.str "Spec", Cell.str "b",
   Cell.none, Cell.none, Cell.none, Cell.none, Cell.none, Cell.str ""]

/-- Manifest sheet containing only the invalid row. -/
def manifestBad : Sheet :=
  { headers := EXPECTED_HEADERS.map Cell.str, rows := [rowBad] }

/-- Manifest sheet containing only the valid row. -/
def manifestGood : Sheet :=
  { headers := EXPECTED_HEADERS.map Cell.str, rows := [rowGood] }

/-- An empty project state with one pending transmittal name. -/
def st0 : ProjectState :=
  { database := Option.none, docList := Option.none, mirror := ∅,
    pending := {"T1"}, accepted := ∅, rejected := ∅ }

/-- The rejected example transmittal. -/
def tBad : Transmittal :=
  { name := "T1", files := files0, manifest := some manifestBad }

/-- The Latest-Version Index produced by merging `tGoodRow` then `tGoodRow2`
into an empty index. -/
def docListAfter : Sheet :=
  { headers := EXPECTED_HEADERS.map Cell.str,
    rows := [EXPECTED_HEADERS.map tGoodRow2.raw.get] }

/-- The accepted example transmittal. -/
def tGood : Transmittal :=
  { name := "T1", files := files0, manifest := some manifestGood }

-- ===========================================================================
-- Theorems
-- ===========================================================================

theorem specDrop_rev (l : List Char) :
    specDropTrailingSemis l.reverse = (l.dropWhile (fun c => c = ';')).reverse := by
  induction l with
  | nil => simp [specDropTrailingSemis]
  | cons c cs ih =>
    rw [List.reverse_cons]
    by_cases hc : c = ';'
    · subst hc
      rw [specDropTrailingSemis]
      simp only [List.getLast?_concat, List.dropLast_concat, if_pos rfl]
      rw [ih]
      simp [List.dropWhile]
    · rw [specDropTrailingSemis]
      simp only [List.getLast?_concat]
      rw [if_neg (by simpa using hc)]
      simp [List.dropWhile, hc]

theorem pyRstrip_eq_specDrop (l : List Char) :
    pyRstripSemis l = specDropTrailingSemis l := by
  have h := specDrop_rev l.reverse
  rw [List.reverse_reverse] at h
  unfold pyRstripSemis
  exact h.symm

/-- C8 (amended): header normalization trims surrounding whitespace, removes
*all* trailing semicolons, and uppercases the result. -/
theorem c8_header_normalize_strips_all_semis (s : String) :
    normalizeHeader s = upperStr ⟨specDropTrailingSemis (pyStrip s).toList⟩ := by
  unfold normalizeHeader
  rw [pyRstrip_eq_specDrop]

/-- C8 counterexample: on `"A;;"` the source removes both trailing
semicolons, while the claim's "exactly one trailing semicolon" reading
yields `"A;"`. -/
theorem c8_counterexample :
    normalizeHeader "A;;" = "A" ∧ claimHeaderNormalize "A;;" = "A;" ∧
    normalizeHeader "A;;" ≠ claimHeaderNormalize "A;;" := by
  refine ⟨by decide, by decide, by decide⟩

theorem lastIndexOf_aux (n : String) (l : List String) :
    ∀ (i : Nat) (acc : Option Nat),
      (l.foldl (fun st h => (st.1 + 1, if h = n then some st.1 else st.2))
        (i, acc)).2 = Option.none ↔ (n ∉ l ∧ acc = Option.none) := by
  induction l with
  | nil => intro i acc; simp
  | cons c cs ih =>
    intro i acc
    simp only [List.foldl_cons]
    rw [ih]
    by_cases hc : c = n
    · subst hc; simp
    · simp only [if_neg hc, List.mem_cons]
      constructor
      · rintro ⟨h1, h2⟩
        exact ⟨fun h => h.elim (fun he => hc he.symm) h1, h2⟩
      · rintro ⟨h1, h2⟩
        exact ⟨fun h => h1 (Or.inr h), h2⟩

theorem lastIndexOf_eq_none (l : List String) (n : String) :
    lastIndexOf l n = Option.none ↔ n ∉ l := by
  unfold lastIndexOf
  rw [lastIndexOf_aux]
  simp

theorem collectVersions_error_empty (di vi : Nat) :
    ∀ (rows : List (List Cell)) (e : Err),
      collectVersions di vi rows = .error e → ∃ f, e = .emptyField f := by
  intro rows
  induction rows with
  | nil => intro e h; simp [collectVersions] at h
  | cons row rest ih =>
    intro e h
    rw [collectVersions] at h
    by_cases hb : (isBlankCell (row.getD di Cell.none) ||
        isBlankCell (row.getD vi Cell.none)) = true
    · rw [if_pos hb] at h; exact ih e h
    · rw [if_neg hb] at h
      unfold normalizeDocNumber normalizeVersion at h
      by_cases hd : isEmptyVal (row.getD di Cell.none) = true
      · rw [if_pos hd] at h
        exact ⟨"DOCUMENT NUMBER 1", by cases h; rfl⟩
      · rw [if_neg hd] at h
        by_cases hv : isEmptyVal (row.getD vi Cell.none) = true
        · rw [if_pos hv] at h
          exact ⟨"VERSION", by cases h; rfl⟩
        · rw [if_neg hv] at h
          cases hrec : collectVersions di vi rest with
          | ok s => rw [hrec] at h; cases h
          | error e2 => rw [hrec] at h; cases h; exact ih _ hrec

/-- C5 (amended): `ensure_workbook` — used when appending to the History
Table and when rewriting the Latest-Version Index — enforces exact equality
of the normalized stored header row against the normalized expected header
list and fails with a header-mismatch error otherwise; but
`load_existing_versions`, which builds the Version History Index from the
history table, performs only a containment check: it fails with a
header-mismatch error exactly when `DOCUMENT NUMBER 1` or `VERSION` is
absent from the normalized stored header names. -/
theorem c5_amended :
    (∀ (s : Sheet) (hs expected : List String),
        headerTexts s.headers = some hs →
        (ensureWorkbook (some s) expected = .ok s ↔
          hs.map normalizeHeader = expected.map normalizeHeader) ∧
        (ensureWorkbook (some s) expected = .error .headerMismatch ↔
          hs.map normalizeHeader ≠ expected.map normalizeHeader)) ∧
    (∀ (s : Sheet) (hs : List String),
        headerTexts s.headers = some hs →
        (loadExistingVersions (some s) = .error .headerMismatch ↔
          ("DOCUMENT NUMBER 1" ∉ hs.map normalizeHeader ∨
           "VERSION" ∉ hs.map normalizeHeader))) := by
  constructor
  · intro s hs expected hh
    simp only [ensureWorkbook, hh]
    by_cases he : hs.map normalizeHeader = expected.map normalizeHeader
    · rw [if_pos he]
      exact ⟨by simp [he], by simp [he]⟩
    · rw [if_neg he]
      exact ⟨by simp [he], by simp [he]⟩
  · intro s hs hh
    simp only [loadExistingVersions, hh]
    cases hd : lastIndexOf (hs.map normalizeHeader) "DOCUMENT NUMBER 1" with
    | none =>
      have hmem := (lastIndexOf_eq_none _ _).mp hd
      simp only [hd]
      constructor
      · intro _; exact Or.inl hmem
      · intro _; trivial
    | some di =>
      have hdm : "DOCUMENT NUMBER 1" ∈ hs.map normalizeHeader := by
        by_contra hmem
        rw [← lastIndexOf_eq_none] at hmem
        rw [hd] at hmem; cases hmem
      cases hv : lastIndexOf (hs.map normalizeHeader) "VERSION" with
      | none =>
        have hmem := (lastIndexOf_eq_none _ _).mp hv
        simp only [hd, hv]
        constructor
        · intro _; exact Or.inr hmem
        · intro _; trivial
      | some vi =>
        have hvm : "VERSION" ∈ hs.map normalizeHeader := by
          by_contra hmem
          rw [← lastIndexOf_eq_none] at hmem
          rw [hv] at hmem; cases hmem
        simp only [hd, hv]
        constructor
        · intro hcol
          obtain ⟨f, hf⟩ := collectVersions_error_empty di vi s.rows _ hcol
          cases hf
        · intro hor
          cases hor with
          | inl h => exact absurd hdm h
          | inr h => exact absurd hvm h

/-- C5 witness: instantiating the amended theorem at a two-column history
table and the 14-column expected schema. -/
theorem c5_amended_witness :
    (ensureWorkbook (some histHeadersOnly) DATABASE_HEADERS =
        .error .headerMismatch ↔
      ["DOCUMENT NUMBER 1", "VERSION"].map normalizeHeader ≠
        DATABASE_HEADERS.map normalizeHeader) ∧
    (loadExistingVersions (some histHeadersOnly) = .error .headerMismatch ↔
      ("DOCUMENT NUMBER 1" ∉ ["DOCUMENT NUMBER 1", "VERSION"].map normalizeHeader ∨
       "VERSION" ∉ ["DOCUMENT NUMBER 1", "VERSION"].map normalizeHeader)) :=
  ⟨(c5_amended.1 histHeadersOnly ["DOCUMENT NUMBER 1", "VERSION"]
      DATABASE_HEADERS rfl).2,
   c5_amended.2 histHeadersOnly ["DOCUMENT NUMBER 1", "VERSION"] rfl⟩

/-- C5 counterexample: a history table whose stored header is only
`[DOCUMENT NUMBER 1, VERSION]` fails the exact-equality check of
`ensure_workbook` against the history schema, yet building the Version
History Index from it succeeds — so the index build does not enforce exact
header equality. -/
theorem c5_counterexample :
    loadExistingVersions (some histHeadersOnly) =
      .ok (∅ : Finset (String × String)) ∧
    ensureWorkbook (some histHeadersOnly) DATABASE_HEADERS =
      .error .headerMismatch := by
  exact ⟨rfl, rfl⟩

theorem suffixName_length (name : String) (k : Nat) :
    (suffixName name k).length = name.length + 1 + (decRepr k).length := by
  rw [suffixName, String.length_append, String.length_append]
  rfl

theorem suffixName_ne_name (name : String) (k : Nat) :
    suffixName name k ≠ name := by
  intro h
  have hlen := congrArg String.length h
  rw [suffixName_length] at hlen
  have hpos : 0 < (decRepr k).length := by
    rw [decRepr]
    show 0 < (decDigitsAux (k + 1) k).length
    rw [decDigitsAux]
    by_cases hk : k < 10
    · rw [if_pos hk]; simp
    · rw [if_neg hk]; simp
  omega

theorem decRepr_one_ne_two : decRepr 1 ≠ decRepr 2 := by decide

theorem suffixName_injOn_12 (name : String) :
    suffixName name 1 ≠ suffixName name 2 := by
  intro h
  rw [suffixName, suffixName] at h
  have hd := congrArg String.data h
  simp only [String.data_append] at hd
  have := List.append_cancel_left hd
  exact decRepr_one_ne_two (congrArg String.mk this)

/-- C9: relocation never overwrites: the chosen destination name is always
free; the transmittal's own name is used when available, and otherwise the
first free suffixed name `name-1`, `name-2`, … in increasing order; in
particular a destination already holding `name` yields `name-1`, and one
holding `name` and `name-1` yields `name-2`. -/
theorem c9_move_never_overwrites (existing : Finset String) (name : String) :
    moveTarget existing name ∉ existing ∧
    (name ∉ existing → moveTarget existing name = name) ∧
    (name ∈ existing →
      ∃ k, 1 ≤ k ∧ moveTarget existing name = suffixName name k ∧
        suffixName name k ∉ existing ∧
        ∀ j, 1 ≤ j → j < k → suffixName name j ∈ existing) ∧
    moveTarget {name} name = suffixName name 1 ∧
    moveTarget (insert (suffixName name 1) {name}) name = suffixName name 2 := by
  classical
  refine ⟨?_, ?_, ?_, ?_, ?_⟩
  · by_cases h : name ∈ existing
    · rw [moveTarget, if_pos h]
      exact Nat.find_spec (freeSuffixExists existing name)
    · rw [moveTarget, if_neg h]
      exact h
  · intro h
    rw [moveTarget, if_neg h]
  · intro h
    refine ⟨Nat.find (freeSuffixExists existing name) + 1, by omega,
      by rw [moveTarget, if_pos h], Nat.find_spec (freeSuffixExists existing name),
      ?_⟩
    intro j hj1 hjk
    have hjlt : j - 1 < Nat.find (freeSuffixExists existing name) := by omega
    have := Nat.find_min (freeSuffixExists existing name) hjlt
    rw [show j - 1 + 1 = j by omega] at this
    exact not_not.mp this
  · have hmem : name ∈ ({name} : Finset String) := Finset.mem_singleton_self name
    rw [moveTarget, if_pos hmem]
    have hfind : Nat.find (freeSuffixExists {name} name) = 0 := by
      rw [Nat.find_eq_zero]
      simp only [Finset.mem_singleton]
      exact suffixName_ne_name name 1
    rw [hfind]
  · have hmem : name ∈ insert (suffixName name 1) ({name} : Finset String) := by
      simp
    rw [moveTarget, if_pos hmem]
    have hfind : Nat.find (freeSuffixExists (insert (suffixName name 1) {name}) name) = 1 := by
      rw [Nat.find_eq_iff]
      refine ⟨?_, ?_⟩
      · simp only [Finset.mem_insert, Finset.mem_singleton]
        push_neg
        exact ⟨Ne.symm (suffixName_injOn_12 name), suffixName_ne_name name 2⟩
      · intro m hm
        interval_cases m
        simp [not_not, Finset.mem_insert, Finset.mem_singleton]
    rw [hfind]

/-- C9 witness: relocating `X` into a root containing `X` gives `X-1`, and
into a root containing `X` and `X-1` gives `X-2`. -/
theorem c9_move_witness :
    moveTarget ({"X"} : Finset String) "X" = "X-1" ∧
    moveTarget (insert "X-1" ({"X"} : Finset String)) "X" = "X-2" := by
  have h := c9_move_never_overwrites ({"X"} : Finset String) "X"
  constructor
  · rw [h.2.2.2.1]; rfl
  · have : ("X-1" : String) = suffixName "X" 1 := by rfl
    rw [this, (c9_move_never_overwrites ∅ "X").2.2.2.2]
    rfl

/-- C10: when building the Version History Index, a history data row whose
document-number cell or version cell is `None` or `""` is silently skipped —
it neither raises nor changes the index — and every pair in the index comes
from some non-skipped row, so a pair carried only by skipped rows is absent
(and a later submission matching only such a row is not flagged as a
duplicate). -/
theorem c10_blank_history_rows_skipped :
    (∀ (hdrs : List Cell) (hs : List String) (di vi : Nat)
        (row : List Cell) (rest : List (List Cell)),
        headerTexts hdrs = some hs →
        lastIndexOf (hs.map normalizeHeader) "DOCUMENT NUMBER 1" = some di →
        lastIndexOf (hs.map normalizeHeader) "VERSION" = some vi →
        (isBlankCell (row.getD di Cell.none) ||
          isBlankCell (row.getD vi Cell.none)) = true →
        loadExistingVersions (some ⟨hdrs, row :: rest⟩) =
          loadExistingVersions (some ⟨hdrs, rest⟩)) ∧
    (∀ (di vi : Nat) (rows : List (List Cell)) (res : Finset (String × String)),
        collectVersions di vi rows = .ok res →
        ∀ p ∈ res, ∃ row ∈ rows,
          (isBlankCell (row.getD di Cell.none) ||
            isBlankCell (row.getD vi Cell.none)) = false ∧
          normalizeDocNumber (row.getD di Cell.none) = .ok p.1 ∧
          ∃ nv, normalizeVersion (row.getD vi Cell.none) = .ok nv ∧
            p.2 = lowerStr nv) := by
  constructor
  · intro hdrs hs di vi row rest hht hdi hvi hblank
    simp only [loadExistingVersions, hht, hdi, hvi]
    rw [collectVersions]
    simp only [hblank, if_pos]
  · intro di vi rows
    induction rows with
    | nil =>
      intro res h p hp
      rw [collectVersions] at h
      cases h
      simp at hp
    | cons row rest ih =>
      intro res h p hp
      rw [collectVersions] at h
      by_cases hb : (isBlankCell (row.getD di Cell.none) ||
          isBlankCell (row.getD vi Cell.none)) = true
      · rw [if_pos hb] at h
        obtain ⟨r, hr, hprops⟩ := ih res h p hp
        exact ⟨r, List.mem_cons_of_mem _ hr, hprops⟩
      · rw [if_neg hb] at h
        cases hnd : normalizeDocNumber (row.getD di Cell.none) with
        | error e => rw [hnd] at h; cases h
        | ok nd =>
          cases hnv : normalizeVersion (row.getD vi Cell.none) with
          | error e => rw [hnd, hnv] at h; cases h
          | ok nv =>
            rw [hnd, hnv] at h
            cases hrec : collectVersions di vi rest with
            | error e => rw [hrec] at h; cases h
            | ok s =>
              rw [hrec] at h
              cases h
              rw [Finset.mem_insert] at hp
              cases hp with
              | inl hpe =>
                refine ⟨row, List.mem_cons_self _ _,
                  Bool.of_not_eq_true hb, ?_, nv, hnv, ?_⟩
                · rw [hnd, hpe]
                · rw [hpe]
              | inr hps =>
                obtain ⟨r, hr, hprops⟩ := ih s hrec p hps
                exact ⟨r, List.mem_cons_of_mem _ hr, hprops⟩

/-- C10 witness: under the canonical history header, a data row whose
document cell is the empty string contributes nothing to the Version History
Index. -/
theorem c10_witness :
    loadExistingVersions
        (some ⟨DATABASE_HEADERS.map Cell.str, [blankDocRow]⟩) =
      loadExistingVersions (some ⟨DATABASE_HEADERS.map Cell.str, []⟩) :=
  c10_blank_history_rows_skipped.1 (DATABASE_HEADERS.map Cell.str)
    DATABASE_HEADERS 4 7 blankDocRow [] rfl rfl rfl (by decide)

/-- C3: a manifest row that reaches the duplicate check (all required fields
present) and whose (trimmed lower-cased document number, trimmed lower-cased
version) pair is in the Version History Index built from the history table
fails with a `DuplicateVersion` error; both components are compared
case-insensitively, since `normalizeDocNumber` lower-cases the identifier and
the version key is `lowerStr` of the normalized version. -/
theorem c3_duplicate_version_case_insensitive
    (pd : String → Option Int) (db : Option Sheet)
    (ex : Finset (String × String)) (entries : List String)
    (logName : String) (raw : RawRow) (nd nv : String)
    (_hload : loadExistingVersions db = .ok ex)
    (hreq : checkRequiredFrom raw REQUIRED_FIELDS = .ok ())
    (hnd : normalizeDocNumber (raw.get "DOCUMENT NUMBER 1") = .ok nd)
    (hnv : normalizeVersion (raw.get "VERSION") = .ok nv)
    (hmem : (nd, lowerStr nv) ∈ ex) :
    validateRow pd ex entries logName raw =
      .error (.duplicateVersion nd (lowerStr nv)) := by
  simp only [validateRow, hreq, hnd, hnv]
  rw [if_pos hmem]

/-- C3 witness: document `SPEC-100`, version `B` is rejected as a duplicate
against a history holding (`spec-100`,`b`). -/
theorem c3_witness :
    validateRow pd0 {("spec-100", "b")} files0 "T1.xlsx" rawDup =
      .error (.duplicateVersion "spec-100" "b") :=
  c3_duplicate_version_case_insensitive pd0 (some histDb)
    {("spec-100", "b")} files0 "T1.xlsx" rawDup "spec-100" "B"
    rfl rfl rfl rfl (by decide)

/-- C4: the Version History Index is fixed for the whole transmittal — the
row loop threads the same index to every row — so two rows of one manifest
carrying the same (document, version) pair both pass the duplicate check:
if each row validates on its own against the index, the pair-equal rows are
both accepted with no errors. -/
theorem c4_same_pair_both_pass
    (pd : String → Option Int) (ex : Finset (String × String))
    (entries : List String) (logName : String) (r1 r2 : RawRow)
    (t1 t2 : TransmittalRow)
    (h1 : validateRow pd ex entries logName r1 = .ok t1)
    (h2 : validateRow pd ex entries logName r2 = .ok t2)
    (_hdoc : t1.normalized_doc = t2.normalized_doc)
    (_hver : lowerStr t1.normalized_version = lowerStr t2.normalized_version) :
    validateRows pd ex entries logName [r1, r2] = ([t1, t2], []) := by
  simp only [validateRows, validateRowsFrom, h1, h2]

/-- C4 witness: two rows resubmitting (spec-100, a) within one manifest are
both validated with zero errors when the pair is absent from history. -/
theorem c4_witness :
    validateRows pd0 ∅ files0 "T1.xlsx" [rawGood, rawGood2] =
      ([tGoodRow, tGoodRow2], []) :=
  c4_same_pair_both_pass pd0 ∅ files0 "T1.xlsx" rawGood rawGood2
    tGoodRow tGoodRow2 rfl rfl rfl rfl

theorem foldl_append_singleton {α β : Type} (f : α → β) :
    ∀ (l : List α) (init : List β),
      l.foldl (fun rs t => rs ++ [f t]) init = init ++ l.map f := by
  intro l
  induction l with
  | nil => intro init; simp
  | cons a as ih => intro init; simp [ih]

theorem ensureWorkbook_some_ok (s s2 : Sheet) (hs : List String)
    (h : ensureWorkbook (some s) hs = .ok s2) : s2 = s := by
  simp only [ensureWorkbook] at h
  cases hht : headerTexts s.headers with
  | none => simp only [hht] at h; cases h
  | some l =>
    simp only [hht] at h
    by_cases he : l.map normalizeHeader = hs.map normalizeHeader
    · rw [if_pos he] at h; cases h; rfl
    · rw [if_neg he] at h; cases h

/-- C6: appending an accepted transmittal to the History Table keeps every
previously stored row unchanged (the new table is the old rows followed by
the new ones), appends exactly one row per validated row in manifest row
order, and each appended row consists of the validated row's thirteen field
values in schema order followed by the matched filenames joined with the
fixed separator `"; "`. -/
theorem c6_append_only
    (db : Option Sheet) (s : Sheet) (rows : List TransmittalRow) (s' : Sheet)
    (hdb : db = some s)
    (happ : appendToDatabase db rows = .ok s') :
    s'.headers = s.headers ∧
    s'.rows = s.rows ++ rows.map dbRowOf ∧
    ∀ t, dbRowOf t =
      [t.raw.transmittalNumber, t.raw.transmittalName, t.raw.date, t.raw.item,
       t.raw.docNumber1, t.raw.docNumber2, t.raw.title, t.raw.version,
       t.raw.docState, t.raw.issueObjective, t.raw.holdList, t.raw.issuedBy,
       t.raw.issuedTo, Cell.str (String.intercalate "; " t.filenames)] := by
  subst hdb
  simp only [appendToDatabase] at happ
  cases he : ensureWorkbook (some s) DATABASE_HEADERS with
  | error e => rw [he] at happ; cases happ
  | ok s2 =>
    rw [he] at happ
    cases happ
    have h2 := ensureWorkbook_some_ok s s2 _ he
    subst h2
    refine ⟨rfl, ?_, fun t => rfl⟩
    rw [foldl_append_singleton]

/-- C6 witness: appending one validated row to the fixture history table. -/
theorem c6_witness :
    (({ headers := DATABASE_HEADERS.map Cell.str,
        rows := [histRow, dbRowOf tGoodRow] } : Sheet)).headers =
        histDb.headers ∧
    (({ headers := DATABASE_HEADERS.map Cell.str,
        rows := [histRow, dbRowOf tGoodRow] } : Sheet)).rows =
        histDb.rows ++ [tGoodRow].map dbRowOf ∧
    ∀ t, dbRowOf t =
      [t.raw.transmittalNumber, t.raw.transmittalName, t.raw.date, t.raw.item,
       t.raw.docNumber1, t.raw.docNumber2, t.raw.title, t.raw.version,
       t.raw.docState, t.raw.issueObjective, t.raw.holdList, t.raw.issuedBy,
       t.raw.issuedTo, Cell.str (String.intercalate "; " t.filenames)] :=
  c6_append_only (some histDb) histDb [tGoodRow]
    { headers := DATABASE_HEADERS.map Cell.str,
      rows := [histRow, dbRowOf tGoodRow] } rfl rfl

theorem copyFiles_mem (tfiles : List String) :
    ∀ (fl : List String) (s : Finset String) (x : String),
      x ∈ copyFiles tfiles fl s ↔ x ∈ s ∨ (x ∈ fl ∧ x ∈ tfiles) := by
  intro fl
  induction fl with
  | nil => intro s x; simp [copyFiles]
  | cons g fl' ih =>
    intro s x
    have hstep : copyFiles tfiles (g :: fl') s =
        copyFiles tfiles fl' (if g ∈ tfiles then insert g s else s) := rfl
    rw [hstep, ih]
    by_cases hg : g ∈ tfiles
    · simp only [if_pos hg, Finset.mem_insert, List.mem_cons]
      constructor
      · rintro ((rfl | hs) | ⟨hf, ht⟩)
        · exact Or.inr ⟨Or.inl rfl, hg⟩
        · exact Or.inl hs
        · exact Or.inr ⟨Or.inr hf, ht⟩
      · rintro (hs | ⟨rfl | hf, ht⟩)
        · exact Or.inl (Or.inr hs)
        · exact Or.inl (Or.inl rfl)
        · exact Or.inr ⟨hf, ht⟩
    · simp only [if_neg hg, List.mem_cons]
      constructor
      · rintro (hs | ⟨hf, ht⟩)
        · exact Or.inl hs
        · exact Or.inr ⟨Or.inr hf, ht⟩
      · rintro (hs | ⟨rfl | hf, ht⟩)
        · exact Or.inl hs
        · exact absurd ht hg
        · exact Or.inr ⟨hf, ht⟩

theorem syncStep_skip (tfiles : List String)
    (acc : Finset String × Finset String) (t : TransmittalRow)
    (h : t.normalized_doc ∈ acc.2) :
    syncStep tfiles acc t = (copyFiles tfiles t.filenames acc.1, acc.2) := by
  simp only [syncStep, if_pos h]
  rfl

theorem syncStep_fresh (tfiles : List String)
    (acc : Finset String × Finset String) (t : TransmittalRow)
    (h : t.normalized_doc ∉ acc.2) :
    syncStep tfiles acc t =
      (copyFiles tfiles t.filenames
        (acc.1.filter (fun f => strContains (lowerStr f) t.normalized_doc = false)),
       insert t.normalized_doc acc.2) := by
  simp only [syncStep, if_neg h]
  rfl

theorem syncFold_subsumed (tfiles : List String) :
    ∀ (rest : List TransmittalRow) (acc : Finset String × Finset String),
      (∀ t ∈ rest, t.normalized_doc ∈ acc.2) →
      rest.foldl (syncStep tfiles) acc =
        (rest.foldl (fun a t => copyFiles tfiles t.filenames a) acc.1, acc.2) := by
  intro rest
  induction rest with
  | nil => intro acc _; rfl
  | cons t ts ih =>
    intro acc h
    rw [List.foldl_cons, List.foldl_cons,
      syncStep_skip tfiles acc t (h t (List.mem_cons_self _ _))]
    exact ih _ (fun u hu => h u (List.mem_cons_of_mem _ hu))

theorem syncFold_not_mem (tfiles : List String) :
    ∀ (rows : List TransmittalRow) (acc : Finset String × Finset String)
      (f : String),
      (∀ t ∈ rows, f ∉ t.filenames) →
      (f ∉ acc.1 ∨ ∃ t ∈ rows, strContains (lowerStr f) t.normalized_doc = true ∧
        t.normalized_doc ∉ acc.2) →
      f ∉ (rows.foldl (syncStep tfiles) acc).1 := by
  intro rows
  induction rows with
  | nil =>
    intro acc f _ hcase
    cases hcase with
    | inl h => exact h
    | inr h =>
      obtain ⟨t, ht, _⟩ := h
      exact absurd ht (List.not_mem_nil t)
  | cons t ts ih =>
    intro acc f hnf hcase
    rw [List.foldl_cons]
    by_cases hproc : t.normalized_doc ∈ acc.2
    · rw [syncStep_skip tfiles acc t hproc]
      apply ih _ f (fun u hu => hnf u (List.mem_cons_of_mem _ hu))
      cases hcase with
      | inl h =>
        left
        rw [copyFiles_mem]
        rintro (hx | hx)
        · exact h hx
        · exact hnf t (List.mem_cons_self _ _) hx.1
      | inr h =>
        obtain ⟨u, hu, hmatch, hup⟩ := h
        rcases List.mem_cons.mp hu with rfl | hu'
        · exact absurd hproc hup
        · exact Or.inr ⟨u, hu', hmatch, hup⟩
    · rw [syncStep_fresh tfiles acc t hproc]
      apply ih _ f (fun u hu => hnf u (List.mem_cons_of_mem _ hu))
      cases hcase with
      | inl h =>
        left
        rw [copyFiles_mem]
        rintro (hx | hx)
        · exact h (Finset.mem_of_mem_filter f hx)
        · exact hnf t (List.mem_cons_self _ _) hx.1
      | inr h =>
        obtain ⟨u, hu, hmatch, hup⟩ := h
        rcases List.mem_cons.mp hu with rfl | hu'
        · left
          rw [copyFiles_mem]
          rintro (hx | hx)
          · rw [Finset.mem_filter] at hx
            rw [hx.2] at hmatch
            cases hmatch
          · exact hnf u (List.mem_cons_self _ _) hx.1
        · by_cases hdu : u.normalized_doc = t.normalized_doc
          · left
            rw [copyFiles_mem]
            rintro (hx | hx)
            · rw [Finset.mem_filter] at hx
              rw [hdu] at hmatch
              rw [hx.2] at hmatch
              cases hmatch
            · exact hnf t (List.mem_cons_self _ _) hx.1
          · right
            refine ⟨u, hu', hmatch, ?_⟩
            rw [Finset.mem_insert]
            rintro (he | hm)
            · exact hdu he
            · exact hup hm

theorem sync_single (tfiles : List String) (m : Finset String)
    (t : TransmittalRow) :
    syncCurrentFiles m tfiles [t] =
      copyFiles tfiles t.filenames
        (m.filter (fun f => strContains (lowerStr f) t.normalized_doc = false)) := by
  simp only [syncCurrentFiles, List.foldl_cons, List.foldl_nil,
    syncStep_fresh tfiles (m, ∅) t (Finset.not_mem_empty _)]

/-- C7: for every accepted transmittal, the Current-Files synchronizer
deletes, once per document identifier at its first occurrence in row order,
every mirror file whose lower-cased name contains the identifier, and then
copies in the files listed on that document's rows: (i) over any row list,
a mirror file whose lower-cased name contains some touched identifier and
that is listed on no row is absent afterwards; (ii) for a transmittal all of
whose validated rows carry one identifier, the mirror is filtered exactly
once by that identifier — not once per row, so files copied by earlier rows
of the document survive its later rows — and every row's listed files are
then copied in, in row order; (iii) hence after two accepted transmittals
for one document with files `a` then `b` (the identifier occurring in `a`'s
lower-cased name), the mirror contains `b` and no longer contains `a`. -/
theorem c7_mirror_last_writer_wins :
    (∀ (m : Finset String) (tfiles : List String) (rows : List TransmittalRow)
        (f : String),
        f ∈ m →
        (∃ t ∈ rows, strContains (lowerStr f) t.normalized_doc = true) →
        (∀ t ∈ rows, f ∉ t.filenames) →
        f ∉ syncCurrentFiles m tfiles rows) ∧
    (∀ (m : Finset String) (tfiles : List String) (t0 : TransmittalRow)
        (rest : List TransmittalRow),
        (∀ t ∈ rest, t.normalized_doc = t0.normalized_doc) →
        syncCurrentFiles m tfiles (t0 :: rest) =
          (t0 :: rest).foldl (fun a t => copyFiles tfiles t.filenames a)
            (m.filter
              (fun f => strContains (lowerStr f) t0.normalized_doc = false))) ∧
    (∀ (m : Finset String) (raw1 raw2 : RawRow) (d v1 v2 a b : String),
        strContains (lowerStr a) d = true →
        a ≠ b →
        b ∈ syncCurrentFiles (syncCurrentFiles m [a] [⟨raw1, d, v1, [a]⟩])
              [b] [⟨raw2, d, v2, [b]⟩] ∧
        a ∉ syncCurrentFiles (syncCurrentFiles m [a] [⟨raw1, d, v1, [a]⟩])
              [b] [⟨raw2, d, v2, [b]⟩]) := by
  refine ⟨?_, ?_, ?_⟩
  · intro m tfiles rows f _ hmatch hnf
    obtain ⟨t, ht, hc⟩ := hmatch
    exact syncFold_not_mem tfiles rows (m, ∅) f hnf
      (Or.inr ⟨t, ht, hc, Finset.not_mem_empty _⟩)
  · intro m tfiles t0 rest hrest
    simp only [syncCurrentFiles, List.foldl_cons,
      syncStep_fresh tfiles (m, ∅) t0 (Finset.not_mem_empty _)]
    rw [syncFold_subsumed tfiles rest _
      (fun t ht => by rw [hrest t ht]; exact Finset.mem_insert_self _ _)]
  · intro m raw1 raw2 d v1 v2 a b hcont hab
    rw [sync_single, sync_single]
    constructor
    · rw [copyFiles_mem]
      exact Or.inr ⟨List.mem_singleton_self b, List.mem_singleton_self b⟩
    · rw [copyFiles_mem]
      rintro (hx | hx)
      · rw [Finset.mem_filter] at hx
        have hx2 : strContains (lowerStr a) d = false := hx.2
        rw [hx2] at hcont
        cases hcont
      · exact hab (List.mem_singleton.mp hx.1)

/-- C7 witness: (i) a stale mirror file containing `spec-100` and listed
nowhere is removed; (ii) a two-row transmittal for `spec-100` filters the
mirror once and copies both rows' files; (iii) document `d`, file `a.pdf`
then file `b.pdf`. -/
theorem c7_witness :
    ("spec-100_old.pdf" ∉
      syncCurrentFiles {"spec-100_old.pdf"} files0 [tGoodRow]) ∧
    (syncCurrentFiles ∅ files0 [tGoodRow, tGoodRow2] =
      [tGoodRow, tGoodRow2].foldl (fun a t => copyFiles files0 t.filenames a)
        ((∅ : Finset String).filter
          (fun f => strContains (lowerStr f) tGoodRow.normalized_doc = false))) ∧
    ("b.pdf" ∈ syncCurrentFiles
        (syncCurrentFiles ∅ ["a.pdf"] [⟨rawGood, "d", "1", ["a.pdf"]⟩])
        ["b.pdf"] [⟨rawGood2, "d", "2", ["b.pdf"]⟩] ∧
     "a.pdf" ∉ syncCurrentFiles
        (syncCurrentFiles ∅ ["a.pdf"] [⟨rawGood, "d", "1", ["a.pdf"]⟩])
        ["b.pdf"] [⟨rawGood2, "d", "2", ["b.pdf"]⟩]) :=
  ⟨c7_mirror_last_writer_wins.1 {"spec-100_old.pdf"} files0 [tGoodRow]
      "spec-100_old.pdf" (by decide) ⟨tGoodRow, by decide, by decide⟩ (by decide),
   c7_mirror_last_writer_wins.2.1 ∅ files0 tGoodRow [tGoodRow2] (by decide),
   c7_mirror_last_writer_wins.2.2 ∅ rawGood rawGood2 "d" "1" "2" "a.pdf" "b.pdf"
     (by decide) (by decide)⟩

theorem dictInsert_mem_self (d : List (String × RawRow)) (k : String)
    (v : RawRow) : (k, v) ∈ dictInsert d k v := by
  unfold dictInsert
  by_cases h : d.any (fun p => p.1 == k)
  · rw [if_pos h]
    rw [List.any_eq_true] at h
    obtain ⟨p, hp, hpk⟩ := h
    rw [List.mem_map]
    exact ⟨p, hp, by rw [if_pos hpk]⟩
  · rw [if_neg h]
    exact List.mem_append_right _ (List.mem_singleton_self _)

theorem dictInsert_mem_other (d : List (String × RawRow)) (k : String)
    (v : RawRow) (p : String × RawRow) (hp : p ∈ d) (hne : p.1 ≠ k) :
    p ∈ dictInsert d k v := by
  unfold dictInsert
  by_cases h : d.any (fun q => q.1 == k)
  · rw [if_pos h, List.mem_map]
    refine ⟨p, hp, ?_⟩
    rw [if_neg (by simpa using hne)]
  · rw [if_neg h]
    exact List.mem_append_left _ hp

theorem dictInsert_keys (d : List (String × RawRow)) (k : String) (v : RawRow) :
    (dictInsert d k v).map Prod.fst =
      if k ∈ d.map Prod.fst then d.map Prod.fst else d.map Prod.fst ++ [k] := by
  unfold dictInsert
  by_cases h : d.any (fun p => p.1 == k)
  · rw [List.any_eq_true] at h
    obtain ⟨p, hp, hpk⟩ := h
    rw [beq_iff_eq] at hpk
    have hk : k ∈ d.map Prod.fst := hpk ▸ List.mem_map_of_mem Prod.fst hp
    rw [if_pos (by rw [List.any_eq_true]; exact ⟨p, hp, by simpa using hpk⟩),
      if_pos hk, List.map_map]
    apply List.map_congr_left
    intro q _
    by_cases hq : q.1 = k
    · simp [hq]
    · simp [hq]
  · have hk : k ∉ d.map Prod.fst := by
      intro hmem
      rw [List.mem_map] at hmem
      obtain ⟨p, hp, hpk⟩ := hmem
      exact absurd (List.any_eq_true.mpr ⟨p, hp, by simpa using hpk⟩) h
    rw [if_neg h, if_neg hk, List.map_append]
    rfl

theorem dictInsert_nodup (d : List (String × RawRow)) (k : String) (v : RawRow)
    (h : (d.map Prod.fst).Nodup) : ((dictInsert d k v).map Prod.fst).Nodup := by
  rw [dictInsert_keys]
  by_cases hk : k ∈ d.map Prod.fst
  · rw [if_pos hk]; exact h
  · rw [if_neg hk, ← List.concat_eq_append]
    exact List.Nodup.concat hk h

theorem dictInsert_forall (P : String × RawRow → Prop)
    (d : List (String × RawRow)) (k : String) (v : RawRow)
    (hd : ∀ p ∈ d, P p) (hkv : P (k, v)) :
    ∀ p ∈ dictInsert d k v, P p := by
  unfold dictInsert
  by_cases h : d.any (fun q => q.1 == k)
  · rw [if_pos h]
    intro p hp
    rw [List.mem_map] at hp
    obtain ⟨q, hq, hqe⟩ := hp
    by_cases hqk : q.1 = k
    · rw [if_pos (by simpa using hqk)] at hqe
      exact hqe ▸ hkv
    · rw [if_neg (by simpa using hqk)] at hqe
      exact hqe ▸ hd q hq
  · rw [if_neg h]
    intro p hp
    rw [List.mem_append] at hp
    cases hp with
    | inl hl => exact hd p hl
    | inr hr => rw [List.mem_singleton] at hr; exact hr ▸ hkv

theorem lastRowFor_mem (dkey : String) :
    ∀ (l : List TransmittalRow) (t0 : TransmittalRow),
      lastRowFor dkey l = some t0 → t0 ∈ l ∧ t0.normalized_doc = dkey := by
  intro l
  induction l with
  | nil => intro t0 h; cases h
  | cons t ts ih =>
    intro t0 h
    rw [lastRowFor] at h
    cases hrec : lastRowFor dkey ts with
    | some u =>
      rw [hrec] at h
      cases h
      obtain ⟨hm, hd⟩ := ih _ hrec
      exact ⟨List.mem_cons_of_mem _ hm, hd⟩
    | none =>
      rw [hrec] at h
      by_cases hk : t.normalized_doc = dkey
      · rw [if_pos hk] at h
        cases h
        exact ⟨List.mem_cons_self _ _, hk⟩
      · rw [if_neg hk] at h
        cases h

theorem lastRowFor_none (dkey : String) :
    ∀ (l : List TransmittalRow), lastRowFor dkey l = Option.none →
      ∀ u ∈ l, u.normalized_doc ≠ dkey := by
  intro l
  induction l with
  | nil => intro _ u hu; cases hu
  | cons t ts ih =>
    intro h u hu
    rw [lastRowFor] at h
    cases hrec : lastRowFor dkey ts with
    | some w => rw [hrec] at h; cases h
    | none =>
      rw [hrec] at h
      by_cases hk : t.normalized_doc = dkey
      · rw [if_pos hk] at h; cases h
      · rw [if_neg hk] at h
        rw [List.mem_cons] at hu
        cases hu with
        | inl he => exact he ▸ hk
        | inr hm => exact ih hrec u hm

theorem foldl_dictInsert_preserve (p : String × RawRow) :
    ∀ (l : List TransmittalRow) (d : List (String × RawRow)),
      p ∈ d → (∀ u ∈ l, u.normalized_doc ≠ p.1) →
      p ∈ l.foldl (fun d t => dictInsert d t.normalized_doc t.raw) d := by
  intro l
  induction l with
  | nil => intro d hp _; exact hp
  | cons t ts ih =>
    intro d hp hne
    rw [List.foldl_cons]
    refine ih _ ?_ (fun u hu => hne u (List.mem_cons_of_mem _ hu))
    exact dictInsert_mem_other d _ _ p hp
      (fun he => hne t (List.mem_cons_self _ _) he.symm)

theorem foldl_dictInsert_last (dkey : String) :
    ∀ (l : List TransmittalRow) (d : List (String × RawRow))
      (t0 : TransmittalRow), lastRowFor dkey l = some t0 →
      (dkey, t0.raw) ∈ l.foldl (fun d t => dictInsert d t.normalized_doc t.raw) d := by
  intro l
  induction l with
  | nil => intro d t0 h; cases h
  | cons t ts ih =>
    intro d t0 h
    rw [lastRowFor] at h
    rw [List.foldl_cons]
    cases hrec : lastRowFor dkey ts with
    | some u =>
      rw [hrec] at h
      cases h
      exact ih _ _ hrec
    | none =>
      rw [hrec] at h
      by_cases hk : t.normalized_doc = dkey
      · rw [if_pos hk] at h
        cases h
        refine foldl_dictInsert_preserve _ ts _ ?_ ?_
        · rw [← hk]; exact dictInsert_mem_self d _ _
        · exact fun u hu => lastRowFor_none dkey ts hrec u hu
      · rw [if_neg hk] at h
        cases h

theorem buildDictFrom_inv (names : List String) :
    ∀ (rows : List (List Cell)) (acc d : List (String × RawRow)),
      (∀ p ∈ acc, normalizeDocNumber (p.2.get "DOCUMENT NUMBER 1") = .ok p.1) →
      (acc.map Prod.fst).Nodup →
      buildDictFrom names acc rows = .ok d →
      (∀ p ∈ d, normalizeDocNumber (p.2.get "DOCUMENT NUMBER 1") = .ok p.1) ∧
      (d.map Prod.fst).Nodup := by
  intro rows
  induction rows with
  | nil =>
    intro acc d hinv hnd h
    rw [buildDictFrom] at h
    cases h
    exact ⟨hinv, hnd⟩
  | cons row rest ih =>
    intro acc d hinv hnd h
    rw [buildDictFrom] at h
    by_cases hb : row.all isBlankCell
    · rw [if_pos hb] at h
      exact ih acc d hinv hnd h
    · rw [if_neg hb] at h
      cases hk : normalizeDocNumber ((recordOf names row).get "DOCUMENT NUMBER 1") with
      | error e => simp only [hk] at h; cases h
      | ok k =>
        simp only [hk] at h
        exact ih _ d (dictInsert_forall _ _ _ _ hinv hk)
          (dictInsert_nodup _ _ _ hnd) h

theorem foldl_rows_inv :
    ∀ (l : List TransmittalRow) (d : List (String × RawRow)),
      (∀ t ∈ l, normalizeDocNumber (t.raw.get "DOCUMENT NUMBER 1") =
        .ok t.normalized_doc) →
      (∀ p ∈ d, normalizeDocNumber (p.2.get "DOCUMENT NUMBER 1") = .ok p.1) →
      (d.map Prod.fst).Nodup →
      (∀ p ∈ l.foldl (fun d t => dictInsert d t.normalized_doc t.raw) d,
        normalizeDocNumber (p.2.get "DOCUMENT NUMBER 1") = .ok p.1) ∧
      ((l.foldl (fun d t => dictInsert d t.normalized_doc t.raw) d).map
        Prod.fst).Nodup := by
  intro l
  induction l with
  | nil => intro d _ hinv hnd; exact ⟨hinv, hnd⟩
  | cons t ts ih =>
    intro d hl hinv hnd
    rw [List.foldl_cons]
    exact ih _ (fun u hu => hl u (List.mem_cons_of_mem _ hu))
      (dictInsert_forall _ _ _ _ hinv (hl t (List.mem_cons_self _ _)))
      (dictInsert_nodup _ _ _ hnd)

/-- C2: after `update_document_list` for an accepted transmittal, the
rewritten Latest-Version Index carries at most one row per normalized
document identifier (the mapped identifier keys are pairwise distinct), and
for every identifier touched by the transmittal the stored row is exactly the
field set of the transmittal's *last* manifest row for that identifier —
overwriting by acceptance order, with no comparison of version or date
values. -/
theorem c2_latest_index_overwrite
    (dl : Option Sheet) (rows : List TransmittalRow) (s' : Sheet)
    (hrows : ∀ t ∈ rows,
      normalizeDocNumber (t.raw.get "DOCUMENT NUMBER 1") = .ok t.normalized_doc)
    (hupd : updateDocumentList dl rows = .ok s') :
    (s'.rows.map (fun r => normalizeDocNumber (r.getD 4 Cell.none))).Nodup ∧
    (∀ dkey t0, lastRowFor dkey rows = some t0 →
      ∃ r ∈ s'.rows, r = EXPECTED_HEADERS.map t0.raw.get ∧
        normalizeDocNumber (r.getD 4 Cell.none) = .ok dkey) := by
  simp only [updateDocumentList] at hupd
  cases he : ensureWorkbook dl EXPECTED_HEADERS with
  | error e => rw [he] at hupd; cases hupd
  | ok s =>
    simp only [he] at hupd
    cases hht : headerTexts s.headers with
    | none => simp only [hht] at hupd; cases hupd
    | some hs =>
      simp only [hht] at hupd
      cases hbd : buildDictFrom (hs.map normalizeHeader) [] s.rows with
      | error e => simp only [hbd] at hupd; cases hupd
      | ok d0 =>
        simp only [hbd] at hupd
        cases hupd
        have hinv0 := buildDictFrom_inv (hs.map normalizeHeader) s.rows [] d0
          (by intro p hp; cases hp) (by simp) hbd
        have hfold := foldl_rows_inv rows d0 hrows hinv0.1 hinv0.2
        constructor
        · rw [List.map_map]
          have heq : (rows.foldl (fun d t => dictInsert d t.normalized_doc t.raw)
                d0).map
              ((fun r => normalizeDocNumber (r.getD 4 Cell.none)) ∘
                (fun p => EXPECTED_HEADERS.map p.2.get)) =
              (rows.foldl (fun d t => dictInsert d t.normalized_doc t.raw)
                d0).map (fun p => Except.ok p.1) :=
            List.map_congr_left (fun p hp => hfold.1 p hp)
          rw [heq]
          have hinj : Function.Injective
              (Except.ok : String → Except Err String) := by
            intro a b hab
            cases hab
            rfl
          have h1 := List.Nodup.map hinj hfold.2
          rw [List.map_map] at h1
          exact h1
        · intro dkey t0 hlast
          have hmem := foldl_dictInsert_last dkey rows d0 t0 hlast
          refine ⟨EXPECTED_HEADERS.map t0.raw.get,
            List.mem_map_of_mem _ hmem, rfl, ?_⟩
          have ht0 := lastRowFor_mem dkey rows t0 hlast
          have hkey := hrows t0 ht0.1
          rw [ht0.2] at hkey
          exact hkey

/-- C2 witness: two validated rows for the same document in one transmittal
leave exactly the second row's field set in the rewritten index. -/
theorem c2_witness :
    (docListAfter.rows.map
        (fun r => normalizeDocNumber (r.getD 4 Cell.none))).Nodup ∧
    (∀ dkey t0, lastRowFor dkey [tGoodRow, tGoodRow2] = some t0 →
      ∃ r ∈ docListAfter.rows,
        r = EXPECTED_HEADERS.map t0.raw.get ∧
        normalizeDocNumber (r.getD 4 Cell.none) = .ok dkey) :=
  c2_latest_index_overwrite Option.none [tGoodRow, tGoodRow2] docListAfter
    (by intro t ht; fin_cases ht <;> rfl) rfl

theorem moveTarget_not_mem (existing : Finset String) (name : String) :
    moveTarget existing name ∉ existing := by
  by_cases h : name ∈ existing
  · rw [moveTarget, if_pos h]
    exact Nat.find_spec (freeSuffixExists existing name)
  · rw [moveTarget, if_neg h]
    exact h

/-- C1: for a transmittal whose manifest is readable (and whose history
index loads), the run accepts it exactly when at least one row validated and
no row-level error was collected; on rejection the History Table, the
Latest-Version Index and the Current Files mirror are untouched, and the
transmittal directory moves (to a fresh name) under the rejected root. -/
theorem c1_accept_iff_no_errors
    (pd : String → Option Int) (st : ProjectState) (t : Transmittal)
    (m : Sheet) (raws : List RawRow) (ex : Finset (String × String))
    (st' : ProjectState) (acc : Bool)
    (hm : t.manifest = some m)
    (hload : loadExistingVersions st.database = .ok ex)
    (hread : readSheetRows m = .ok raws)
    (hrun : processTransmittal pd st t = .ok (st', acc)) :
    (acc = true ↔
      ((validateRows pd ex t.files (logNameOf t) raws).1 ≠ [] ∧
       (validateRows pd ex t.files (logNameOf t) raws).2 = [])) ∧
    (acc = false →
      st'.database = st.database ∧ st'.docList = st.docList ∧
      st'.mirror = st.mirror ∧ st'.accepted = st.accepted ∧
      st'.pending = st.pending.erase t.name ∧
      st'.rejected = insert (moveTarget st.rejected t.name) st.rejected ∧
      moveTarget st.rejected t.name ∉ st.rejected) := by
  simp only [processTransmittal, hm, hload, hread] at hrun
  by_cases hc : (validateRows pd ex t.files (logNameOf t) raws).1 = [] ∨
      (validateRows pd ex t.files (logNameOf t) raws).2 ≠ []
  · rw [if_pos hc] at hrun
    cases hrun
    constructor
    · constructor
      · intro hacc; cases hacc
      · intro hv
        exfalso
        cases hc with
        | inl h => exact hv.1 h
        | inr h => exact h hv.2
    · intro _
      exact ⟨rfl, rfl, rfl, rfl, rfl, rfl, moveTarget_not_mem st.rejected t.name⟩
  · rw [if_neg hc] at hrun
    push_neg at hc
    cases ha : appendToDatabase st.database
        (validateRows pd ex t.files (logNameOf t) raws).1 with
    | error e => simp only [ha] at hrun; cases hrun
    | ok db' =>
      simp only [ha] at hrun
      cases hu : updateDocumentList st.docList
          (validateRows pd ex t.files (logNameOf t) raws).1 with
      | error e => simp only [hu] at hrun; cases hrun
      | ok dl' =>
        simp only [hu] at hrun
        cases hrun
        constructor
        · exact ⟨fun _ => ⟨hc.1, hc.2⟩, fun _ => rfl⟩
        · intro h; cases h

/-- C1 witness: a one-row manifest with an empty required TITLE field is
rejected; the tables and mirror are unchanged and the directory lands under
the rejected root. -/
theorem c1_witness :
    ((false = true) ↔
      ((validateRows pd0 ∅ tBad.files (logNameOf tBad) [rawBad]).1 ≠ [] ∧
       (validateRows pd0 ∅ tBad.files (logNameOf tBad) [rawBad]).2 = [])) ∧
    ((false = false) →
      (rejectState st0 tBad.name).database = st0.database ∧
      (rejectState st0 tBad.name).docList = st0.docList ∧
      (rejectState st0 tBad.name).mirror = st0.mirror ∧
      (rejectState st0 tBad.name).accepted = st0.accepted ∧
      (rejectState st0 tBad.name).pending = st0.pending.erase tBad.name ∧
      (rejectState st0 tBad.name).rejected =
        insert (moveTarget st0.rejected tBad.name) st0.rejected ∧
      moveTarget st0.rejected tBad.name ∉ st0.rejected) :=
  c1_accept_iff_no_errors pd0 st0 tBad manifestBad [rawBad] ∅
    (rejectState st0 tBad.name) false rfl rfl rfl rfl
